import Mathlib

/-!
Shallow embedding of the delta-neutral portfolio risk and hedging engine:
the accounting ledger (`accounting_framework.py`), the hedging evaluator
(`dynamic_hedging.py`) and the position-lifecycle monitor
(`delta_neutral_strategy.py`).

Python `Decimal` values are modelled as exact rationals (`ℚ`); Python dicts
are modelled as insertion-ordered association lists (`List (key × value)`)
whose lookup takes the first matching key, matching dict semantics when keys
are unique.  External collaborators (clock, price feed, order placement) are
passed in as explicit arguments.
-/

unseal Rat.mul Rat.add Rat.sub Rat.inv List.merge List.mergeSort

namespace Spec2Proof

/-- `AccountType` enum from `accounting_framework.py`. -/
inductive AccountType where
  | SPOT
  | MARGIN
  | FUTURES
  | PERPETUAL
deriving DecidableEq, Repr

/-- `TradeType` (from `hummingbot.core.event.events`): order side. -/
inductive TradeType where
  | BUY
  | SELL
deriving DecidableEq, Repr

/-- `HedgingMode` enum from `dynamic_hedging.py`. -/
inductive HedgingMode where
  | IMMEDIATE
  | DELAYED
  | DYNAMIC
  | AGGRESSIVE
  | PASSIVE
deriving DecidableEq, Repr

/-- `PositionEntry` dataclass from `accounting_framework.py`. -/
structure PositionEntry where
  instrument : String
  exchange : String
  account_type : AccountType
  size : ℚ
  entry_price : ℚ
  timestamp : ℚ
  side : String
  leverage : Option ℚ := none
  funding_payments : ℚ := 0
  realized_pnl : ℚ := 0
  unrealized_pnl : ℚ := 0
deriving DecidableEq, Repr

/-- `BalanceEntry` dataclass from `accounting_framework.py`. -/
structure BalanceEntry where
  asset : String
  exchange : String
  account_type : AccountType
  available : ℚ
  locked : ℚ
  total : ℚ
  last_updated : ℚ
deriving DecidableEq, Repr

/-- Python `abs` on exact decimals. -/
def qabs (x : ℚ) : ℚ := if x < 0 then -x else x

/-- Python binary `min` on exact decimals. -/
def qmin (a b : ℚ) : ℚ := if a ≤ b then a else b

/-- Python dict with string keys, as an insertion-ordered association list. -/
abbrev Dict (α : Type) := List (String × α)

/-- Dict assignment `d[k] = v`: replaces in place when the key exists
(preserving its position, as Python dicts do), otherwise appends. -/
def setKey {α : Type} (m : Dict α) (k : String) (v : α) : Dict α :=
  if m.any (fun kv => kv.1 == k) then
    m.map (fun kv => if kv.1 == k then (k, v) else kv)
  else
    m ++ [(k, v)]

/-- Decides whether `needle` is a prefix of `hay` (character lists). -/
def startsWith : List Char → List Char → Bool
  | [], _ => true
  | _ :: _, [] => false
  | a :: as, b :: bs => a == b && startsWith as bs

/-- Python substring test `needle in hay` on character lists. -/
def containsSub (needle : List Char) : List Char → Bool
  | [] => needle.isEmpty
  | b :: bs => startsWith needle (b :: bs) || containsSub needle bs

/-- Month-name tokens used by `determine_account_type`. -/
def month_tokens : List (List Char) :=
  ["jan", "feb", "mar", "apr", "may", "jun",
   "jul", "aug", "sep", "oct", "nov", "dec"].map String.toList

/-- `EnhancedAccountingFramework.determine_account_type`: classifies an
instrument name by substring heuristics on its lowercased form. -/
def determine_account_type (instrument : List Char) : AccountType :=
  let instrument_lower := instrument.map Char.toLower
  if containsSub "perp".toList instrument_lower
      || containsSub "perpetual".toList instrument_lower then
    AccountType.PERPETUAL
  else if month_tokens.any (fun month => containsSub month instrument_lower) then
    AccountType.FUTURES
  else if containsSub "margin".toList instrument_lower then
    AccountType.MARGIN
  else
    AccountType.SPOT

/-- `EnhancedAccountingFramework.update_position`: on an existing key
(`f"{exchange}_{instrument}_{side}"`), recompute the weighted-average entry
price when the size changes (falling back to the supplied entry price when the
new size is 0) and overwrite size and leverage; on a fresh key, classify the
account type from the instrument name and append a new record. -/
def update_position (positions : Dict PositionEntry) (exchange instrument side : String)
    (size entry_price : ℚ) (leverage : Option ℚ) (now : ℚ) : Dict PositionEntry :=
  let key := exchange ++ "_" ++ instrument ++ "_" ++ side
  match List.lookup key positions with
  | some position =>
      let new_entry_price :=
        if size ≠ position.size then
          if size ≠ 0 then
            (position.size * position.entry_price + (size - position.size) * entry_price) / size
          else
            entry_price
        else
          position.entry_price
      setKey positions key
        { position with entry_price := new_entry_price, size := size, leverage := leverage }
  | none =>
      positions ++ [(key,
        { instrument := instrument
          exchange := exchange
          account_type := determine_account_type instrument.toList
          size := size
          entry_price := entry_price
          timestamp := now
          side := side
          leverage := leverage })]

/-- Price-map key used by the ledger: `f"{position.exchange}_{position.instrument}"`. -/
def price_key (position : PositionEntry) : String :=
  position.exchange ++ "_" ++ position.instrument

/-- Signed unrealized P&L of one position at a current price:
`(current − entry) × size` for a long, `(entry − current) × size` for a short. -/
def position_pnl (position : PositionEntry) (current_price : ℚ) : ℚ :=
  if position.side == "long" then
    (current_price - position.entry_price) * position.size
  else
    (position.entry_price - current_price) * position.size

/-- Writes the recomputed unrealized P&L back into a position record. -/
def mark_position (position : PositionEntry) (current_price : ℚ) : PositionEntry :=
  { position with unrealized_pnl := position_pnl position current_price }

/-- `EnhancedAccountingFramework.calculate_unrealized_pnl`: one pass over the
positions, writing P&L back into each position with a resolvable price and
collecting those values into the returned mapping; positions without a
resolvable price are left untouched and omitted from the mapping.  Returns the
updated positions together with the mapping. -/
def calculate_unrealized_pnl (positions : Dict PositionEntry) (current_prices : Dict ℚ) :
    Dict PositionEntry × Dict ℚ :=
  List.foldl
    (fun acc kv =>
      match List.lookup (price_key kv.2) current_prices with
      | some current_price =>
          (acc.1 ++ [(kv.1, mark_position kv.2 current_price)],
           acc.2 ++ [(kv.1, position_pnl kv.2 current_price)])
      | none => (acc.1 ++ [kv], acc.2))
    ([], []) positions

/-- `EnhancedAccountingFramework.calculate_portfolio_delta`: sum of signed
notional (`+size×price` long, `−size×price` short) over positions whose price
key resolves. -/
def calculate_portfolio_delta (positions : Dict PositionEntry) (current_prices : Dict ℚ) : ℚ :=
  List.foldl
    (fun total_delta kv =>
      match List.lookup (price_key kv.2) current_prices with
      | some current_price =>
          if kv.2.side == "long" then
            total_delta + kv.2.size * current_price
          else
            total_delta + (-kv.2.size * current_price)
      | none => total_delta)
    0 positions

/-- Used margin on one exchange: `Σ size×entry_price/leverage` over that
exchange's positions whose leverage is present and positive (Python
`if position.leverage and position.leverage > 0`). -/
def margin_used (positions : Dict PositionEntry) (exchange : String) : ℚ :=
  List.foldl
    (fun total kv =>
      if kv.2.exchange == exchange then
        match kv.2.leverage with
        | some lev => if lev > 0 then total + kv.2.size * kv.2.entry_price / lev else total
        | none => total
      else total)
    0 positions

/-- Available margin on one exchange: sum of balance totals whose account type
is margin, futures or perpetual. -/
def margin_available (balances : Dict BalanceEntry) (exchange : String) : ℚ :=
  List.foldl
    (fun total kv =>
      if kv.2.exchange = exchange ∧
          (kv.2.account_type = AccountType.MARGIN ∨ kv.2.account_type = AccountType.FUTURES ∨
            kv.2.account_type = AccountType.PERPETUAL) then
        total + kv.2.total
      else total)
    0 balances

/-- First-occurrence deduplication, matching the insertion order in which
`calculate_margin_utilization` groups positions by exchange. -/
def dedup_first : List String → List String
  | [] => []
  | x :: xs => x :: (dedup_first xs).filter (fun y => !(y == x))

/-- The exchanges appearing among the positions, in first-appearance order. -/
def exchanges_of (positions : Dict PositionEntry) : List String :=
  dedup_first (positions.map (fun kv => kv.2.exchange))

/-- `EnhancedAccountingFramework.calculate_margin_utilization`: per exchange,
`used/available` when available margin is positive, else `0`. -/
def calculate_margin_utilization (positions : Dict PositionEntry)
    (balances : Dict BalanceEntry) : Dict ℚ :=
  (exchanges_of positions).map
    (fun exchange =>
      (exchange,
        if margin_available balances exchange > 0 then
          margin_used positions exchange / margin_available balances exchange
        else 0))

/-- `HedgingRule` dataclass from `dynamic_hedging.py`. -/
structure HedgingRule where
  instrument_pair : String × String
  hedge_ratio : ℚ
  threshold_bps : ℚ
  max_hedge_size : ℚ
  min_hedge_size : ℚ
  mode : HedgingMode
  priority : Int
  enabled : Bool := true
deriving DecidableEq, Repr

/-- `HedgeExecution` dataclass from `dynamic_hedging.py`. -/
structure HedgeExecution where
  primary_instrument : String
  hedge_instrument : String
  hedge_size : ℚ
  hedge_side : TradeType
  execution_price : Option ℚ
  timestamp : ℚ
  status : String
  order_id : Option String := none
  slippage_bps : Option ℚ := none
deriving DecidableEq, Repr

/-- The `hedging_rules` dict: keyed by `instrument_pair`. -/
abbrev RuleDict := List ((String × String) × HedgingRule)

/-- `EnhancedDynamicHedging.get_net_position`: long size minus short size over
all positions matching the instrument, across exchanges. -/
def get_net_position (positions : Dict PositionEntry) (instrument : String) : ℚ :=
  List.foldl
    (fun net kv =>
      if kv.2.instrument == instrument then
        if kv.2.side == "long" then net + kv.2.size else net - kv.2.size
      else net)
    0 positions

/-- The rule's hedge imbalance: `primary_net × hedge_ratio − hedge_net`. -/
def rule_imbalance (positions : Dict PositionEntry) (rule : HedgingRule) : ℚ :=
  get_net_position positions rule.instrument_pair.1 * rule.hedge_ratio
    - get_net_position positions rule.instrument_pair.2

/-- `EnhancedDynamicHedging.evaluate_hedging_rule`.  (The Python method also
receives a `risk_metrics` dict, which its body never reads; it is omitted.)
Dead-zone, missing/zero price, zero primary notional and threshold checks give
no action; otherwise an execution of size `min(|imbalance|, max_hedge_size)`,
`BUY` when the imbalance is positive, else `SELL`. -/
def evaluate_hedging_rule (positions : Dict PositionEntry) (rule : HedgingRule)
    (current_prices : Dict ℚ) (now : ℚ) : Option HedgeExecution :=
  let hedge_imbalance := rule_imbalance positions rule
  if qabs hedge_imbalance < rule.min_hedge_size then none
  else
    match List.lookup rule.instrument_pair.1 current_prices with
    | none => none
    | some primary_price =>
        if primary_price = 0 then none
        else
          let imbalance_value := hedge_imbalance * primary_price
          let total_position_value :=
            qabs (get_net_position positions rule.instrument_pair.1) * primary_price
          if total_position_value = 0 then none
          else
            let imbalance_bps := imbalance_value / total_position_value * 10000
            if qabs imbalance_bps < rule.threshold_bps then none
            else
              some
                { primary_instrument := rule.instrument_pair.1
                  hedge_instrument := rule.instrument_pair.2
                  hedge_size := qmin (qabs hedge_imbalance) rule.max_hedge_size
                  hedge_side := if hedge_imbalance > 0 then TradeType.BUY else TradeType.SELL
                  execution_price := none
                  timestamp := now
                  status := "pending" }

/-- The "liquidity heuristic" used by `calculate_emergency_hedge` for one
price-map entry: `|net_position| × price`. -/
def liquidity_score (positions : Dict PositionEntry) (kv : String × ℚ) : ℚ :=
  qabs (get_net_position positions kv.1) * kv.2

/-- One step of the argmax loop of `calculate_emergency_hedge`: replace the
running best on strict improvement of the liquidity score. -/
def emergency_step (positions : Dict PositionEntry) (best : Option String × ℚ)
    (kv : String × ℚ) : Option String × ℚ :=
  if liquidity_score positions kv > best.2 then (some kv.1, liquidity_score positions kv)
  else best

/-- The argmax loop of `calculate_emergency_hedge`: best instrument so far and
its score, starting from `(None, 0)`. -/
def best_emergency_instrument (positions : Dict PositionEntry) (current_prices : Dict ℚ) :
    Option String × ℚ :=
  List.foldl (emergency_step positions) (none, 0) current_prices

/-- `EnhancedDynamicHedging.calculate_emergency_hedge`: hedge on the
highest-liquidity instrument, size `min(0.5×|delta|, max_single_hedge_size)`,
side opposing the delta sign.  Python's `if not best_hedge_instrument` treats
both `None` and the empty string as no instrument. -/
def calculate_emergency_hedge (positions : Dict PositionEntry) (max_single_hedge_size : ℚ)
    (portfolio_delta : ℚ) (current_prices : Dict ℚ) (now : ℚ) : Option HedgeExecution :=
  match (best_emergency_instrument positions current_prices).1 with
  | none => none
  | some best_hedge_instrument =>
      if best_hedge_instrument = "" then none
      else
        some
          { primary_instrument := "PORTFOLIO"
            hedge_instrument := best_hedge_instrument
            hedge_size := qmin (qabs portfolio_delta * (1 / 2)) max_single_hedge_size
            hedge_side := if portfolio_delta > 0 then TradeType.SELL else TradeType.BUY
            execution_price := none
            timestamp := now
            status := "pending" }

/-- The emergency path at the top of `evaluate_hedging_needs`: an emergency
hedge is computed exactly when `|portfolio_delta| > emergency_hedge_threshold`. -/
def emergency_component (positions : Dict PositionEntry)
    (emergency_hedge_threshold max_single_hedge_size : ℚ)
    (current_prices : Dict ℚ) (now : ℚ) : Option HedgeExecution :=
  let portfolio_delta := calculate_portfolio_delta positions current_prices
  if qabs portfolio_delta > emergency_hedge_threshold then
    calculate_emergency_hedge positions max_single_hedge_size portfolio_delta current_prices now
  else none

/-- The rule loop of `evaluate_hedging_needs`: every enabled rule, in dict
insertion order, contributes its evaluation result when one is produced. -/
def rule_hedges (positions : Dict PositionEntry) (hedging_rules : RuleDict)
    (current_prices : Dict ℚ) (now : ℚ) : List HedgeExecution :=
  hedging_rules.filterMap
    (fun kv =>
      if kv.2.enabled then evaluate_hedging_rule positions kv.2 current_prices now else none)

/-- `EnhancedDynamicHedging.get_hedge_priority`: the priority of the rule
registered for the hedge's instrument pair, or `999` for non-rule hedges. -/
def get_hedge_priority (hedging_rules : RuleDict) (hedge : HedgeExecution) : Int :=
  match List.lookup (hedge.primary_instrument, hedge.hedge_instrument) hedging_rules with
  | some rule => rule.priority
  | none => 999

/-- `EnhancedDynamicHedging.evaluate_hedging_needs`: emergency hedge first (if
any), then the rule-based hedges, the whole list stably sorted ascending by
`get_hedge_priority` (Python's stable `list.sort`). -/
def evaluate_hedging_needs (positions : Dict PositionEntry) (hedging_rules : RuleDict)
    (emergency_hedge_threshold max_single_hedge_size : ℚ)
    (current_prices : Dict ℚ) (now : ℚ) : List HedgeExecution :=
  let hedges_needed :=
    (emergency_component positions emergency_hedge_threshold max_single_hedge_size
        current_prices now).toList
      ++ rule_hedges positions hedging_rules current_prices now
  hedges_needed.mergeSort
    (fun a b => get_hedge_priority hedging_rules a ≤ get_hedge_priority hedging_rules b)

/-- `RiskParameters` dataclass from `delta_neutral_strategy.py` (the fields
the lifecycle monitor reads). -/
structure RiskParameters where
  max_inventory_size : ℚ
  max_trade_size : ℚ
  min_profit_bps : ℚ
  max_profit_bps : ℚ
  stop_loss_bps : Option ℚ
  take_profit_bps : Option ℚ
  heartbeat_timeout_seconds : Int
  max_position_age_minutes : Int
  emergency_stop_enabled : Bool := true
deriving DecidableEq, Repr

/-- An entry of `active_positions` (the fields the monitor reads; the leg
configurations and order ids only feed the external P&L callback, which is
passed in as a function). -/
structure ActivePosition where
  trade_size : ℚ
  expected_profit : ℚ
  timestamp : ℚ
  status : String
deriving DecidableEq, Repr

/-- Python truthiness-guarded take-profit test
`self.risk_parameters.take_profit_bps and current_pnl > self.risk_parameters.take_profit_bps`:
`None` and `Decimal("0")` are falsy, so a missing or zero threshold disables
the check. -/
def take_profit_hit (take_profit_bps : Option ℚ) (current_pnl : ℚ) : Bool :=
  match take_profit_bps with
  | none => false
  | some tp => !(tp == 0) && decide (current_pnl > tp)

/-- Python truthiness-guarded stop-loss test
`self.risk_parameters.stop_loss_bps and current_pnl < -self.risk_parameters.stop_loss_bps`. -/
def stop_loss_hit (stop_loss_bps : Option ℚ) (current_pnl : ℚ) : Bool :=
  match stop_loss_bps with
  | none => false
  | some sl => !(sl == 0) && decide (current_pnl < -sl)

/-- The per-position exit decision inside `monitor_existing_positions`: close
on age beyond `max_position_age_minutes` (regardless of P&L, via `continue`),
otherwise on a configured take-profit or stop-loss breach (`if`/`elif`). -/
def position_marked_for_close (rp : RiskParameters) (now : ℚ) (pnl : ActivePosition → ℚ)
    (position : ActivePosition) : Bool :=
  let age_minutes := (now - position.timestamp) / 60
  if age_minutes > (rp.max_position_age_minutes : ℚ) then true
  else if take_profit_hit rp.take_profit_bps (pnl position) then true
  else if stop_loss_hit rp.stop_loss_bps (pnl position) then true
  else false

/-- `close_arbitrage_position`'s effect on `active_positions`: the record for
the id is deleted.  (Placing the two opposing orders and accumulating realized
P&L are effects on external collaborators and running totals.) -/
def close_position (active_positions : Dict ActivePosition) (position_id : String) :
    Dict ActivePosition :=
  active_positions.filter (fun kv => !(kv.1 == position_id))

/-- `DeltaNeutralArbitrageStrategy.monitor_existing_positions`: collect the
ids of positions meeting an exit condition (in iteration order), then close
each.  `pnl` stands for `calculate_position_pnl` evaluated against the
external price feed (a total function: the Python method catches its own
errors and returns `Decimal("0")`).  Returns the remaining positions and the
list of closed ids. -/
def monitor_existing_positions (rp : RiskParameters) (now : ℚ) (pnl : ActivePosition → ℚ)
    (active_positions : Dict ActivePosition) : Dict ActivePosition × List String :=
  let positions_to_close :=
    (active_positions.filter (fun kv => position_marked_for_close rp now pnl kv.2)).map
      (fun kv => kv.1)
  (positions_to_close.foldl close_position active_positions, positions_to_close)

/-! Concrete instances used to exercise the definitions. -/

/-- One long position of size 1 on instrument `A` at exchange `e`. -/
def c1pos : Dict PositionEntry :=
  [("e_A_long",
    { instrument := "A", exchange := "e", account_type := AccountType.SPOT,
      size := 1, entry_price := 100, timestamp := 0, side := "long" })]

/-- An enabled rule hedging `A` with `B`, priority 1. -/
def c1rule : HedgingRule :=
  { instrument_pair := ("A", "B"), hedge_ratio := 1, threshold_bps := 1,
    max_hedge_size := 1000, min_hedge_size := 1, mode := HedgingMode.IMMEDIATE, priority := 1 }

/-- The rule dict holding `c1rule` under its instrument pair. -/
def c1rules : RuleDict := [(("A", "B"), c1rule)]

/-- Price map resolving both the ledger key `e_A` and the bare name `A`. -/
def c1prices : Dict ℚ := [("e_A", 200), ("A", 200)]

/-- Same single long position, for the emergency-trigger counterexample. -/
def c2pos : Dict PositionEntry :=
  [("e_A_long",
    { instrument := "A", exchange := "e", account_type := AccountType.SPOT,
      size := 1, entry_price := 100, timestamp := 0, side := "long" })]

/-- Price map holding only the composite ledger key, which never matches a
position's bare instrument name in `get_net_position`. -/
def c2prices : Dict ℚ := [("e_A", 200)]

/-- Price map that also resolves the bare instrument name. -/
def c2wprices : Dict ℚ := [("e_A", 200), ("A", 200)]

/-- The emergency hedge produced on `c2pos`/`c2wprices` at threshold 100. -/
def c2wh : HedgeExecution :=
  { primary_instrument := "PORTFOLIO", hedge_instrument := "A", hedge_size := 100,
    hedge_side := TradeType.SELL, execution_price := none, timestamp := 0, status := "pending" }

/-- A rule with a dead zone of 5, used to exercise the dead-zone guard. -/
def c3rule : HedgingRule :=
  { instrument_pair := ("A", "B"), hedge_ratio := 1, threshold_bps := 1,
    max_hedge_size := 1000, min_hedge_size := 5, mode := HedgingMode.PASSIVE, priority := 2 }

/-- An existing long position of size 2 at entry price 100. -/
def c4position : PositionEntry :=
  { instrument := "BTC-USDT", exchange := "binance", account_type := AccountType.SPOT,
    size := 2, entry_price := 100, timestamp := 0, side := "long" }

/-- A ledger holding only `c4position` under its composite key. -/
def c4pos : Dict PositionEntry := [("binance_BTC-USDT_long", c4position)]

/-- Long 0.5 BTC at entry 50000. -/
def c5long : PositionEntry :=
  { instrument := "BTC-USDT", exchange := "binance", account_type := AccountType.SPOT,
    size := 1 / 2, entry_price := 50000, timestamp := 0, side := "long" }

/-- Short 0.5 BTC at entry 51000. -/
def c5short : PositionEntry :=
  { instrument := "BTC-USDT", exchange := "binance", account_type := AccountType.SPOT,
    size := 1 / 2, entry_price := 51000, timestamp := 0, side := "short" }

/-- The two scenario positions of the spec's unrealized-P&L example. -/
def c5pos : Dict PositionEntry :=
  [("binance_BTC-USDT_long", c5long), ("binance_BTC-USDT_short", c5short)]

/-- Current price 52000 for the scenario instrument. -/
def c5prices : Dict ℚ := [("binance_BTC-USDT", 52000)]

/-- Long leg of a matched pair: size 3 at entry 90. -/
def c6p1 : PositionEntry :=
  { instrument := "ETH-USDT", exchange := "okx", account_type := AccountType.SPOT,
    size := 3, entry_price := 90, timestamp := 0, side := "long" }

/-- Short leg of the matched pair: size 3 at entry 110. -/
def c6p2 : PositionEntry :=
  { instrument := "ETH-USDT", exchange := "okx", account_type := AccountType.SPOT,
    size := 3, entry_price := 110, timestamp := 0, side := "short" }

/-- Price map resolving the matched pair's instrument. -/
def c6prices : Dict ℚ := [("okx_ETH-USDT", 100)]

/-- A leveraged position on exchange `binance` (no balances recorded). -/
def c7pos : Dict PositionEntry :=
  [("binance_BTC-PERP_long",
    { instrument := "BTC-PERP", exchange := "binance", account_type := AccountType.PERPETUAL,
      size := 1, entry_price := 100, timestamp := 0, side := "long", leverage := some 5 })]

/-- Risk parameters: 60-minute max age, generous unbreached P&L thresholds. -/
def c8rp : RiskParameters :=
  { max_inventory_size := 1000000, max_trade_size := 1000, min_profit_bps := 5,
    max_profit_bps := 500, stop_loss_bps := some 1000, take_profit_bps := some 1000,
    heartbeat_timeout_seconds := 30, max_position_age_minutes := 60 }

/-- A position opened at time 0 (70 minutes before time 4200). -/
def c8position : ActivePosition :=
  { trade_size := 1, expected_profit := 10, timestamp := 0, status := "opened" }

/-- The active-position table holding only `c8position`. -/
def c8active : Dict ActivePosition := [("legA_legB_0", c8position)]

/-- An existing short position of size 4 at entry price 250. -/
def c10position : PositionEntry :=
  { instrument := "BTC-USDT", exchange := "binance", account_type := AccountType.SPOT,
    size := 4, entry_price := 250, timestamp := 0, side := "short" }

/-- A ledger holding only `c10position` under its composite key. -/
def c10pos : Dict PositionEntry := [("binance_BTC-USDT_short", c10position)]

/-! Helper lemmas. -/

/-- A prefix test for a longer needle implies the test for its first part. -/
theorem startsWith_append_left (xs ys hay : List Char) :
    startsWith (xs ++ ys) hay = true → startsWith xs hay = true := by
  induction xs generalizing hay with
  | nil => intro _; rfl
  | cons a as ih =>
    intro h
    cases hay with
    | nil => simp [startsWith] at h
    | cons b bs =>
      simp only [List.cons_append, startsWith, Bool.and_eq_true] at h ⊢
      exact ⟨h.1, ih bs h.2⟩

/-- A substring test for a longer needle implies the test for its first part. -/
theorem containsSub_append_left (xs ys hay : List Char) :
    containsSub (xs ++ ys) hay = true → containsSub xs hay = true := by
  induction hay with
  | nil =>
    intro h
    simp only [containsSub, List.isEmpty_iff, List.append_eq_nil] at h ⊢
    exact h.1
  | cons b bs ih =>
    intro h
    simp only [containsSub, Bool.or_eq_true] at h ⊢
    rcases h with h | h
    · exact Or.inl (startsWith_append_left _ _ _ h)
    · exact Or.inr (ih h)

/-- C9: for every instrument name, `determine_account_type` never returns
`AccountType.MARGIN`: any lowercased name containing `"margin"` also contains
the month token `"mar"`, so the futures month-code branch fires before the
margin branch is reached. -/
theorem C9_determine_account_type_never_margin (instrument : List Char) :
    determine_account_type instrument ≠ AccountType.MARGIN := by
  intro hmar
  dsimp only [determine_account_type] at hmar
  split at hmar
  · exact AccountType.noConfusion hmar
  · split at hmar
    · exact AccountType.noConfusion hmar
    · split at hmar
      · rename_i hperp hmonth hmargin
        apply hmonth
        have hsplit : ("margin".toList) = "mar".toList ++ "gin".toList := by decide
        have hmar3 : containsSub "mar".toList (instrument.map Char.toLower) = true :=
          containsSub_append_left _ _ _ (hsplit ▸ hmargin)
        simp only [List.any_eq_true]
        exact ⟨"mar".toList, by decide, hmar3⟩
      · exact AccountType.noConfusion hmar

/-- C6: a matched long/short pair of equal size on the same exchange and
instrument contributes `size×price − size×price` to the portfolio delta, so a
portfolio holding only such a pair has delta exactly 0. -/
theorem C6_matched_pair_delta_zero (k1 k2 exchange instrument : String)
    (size current_price : ℚ) (p1 p2 : PositionEntry) (current_prices : Dict ℚ)
    (h1e : p1.exchange = exchange) (h1i : p1.instrument = instrument)
    (h1s : p1.side = "long") (h1z : p1.size = size)
    (h2e : p2.exchange = exchange) (h2i : p2.instrument = instrument)
    (h2s : p2.side = "short") (h2z : p2.size = size)
    (hp : List.lookup (exchange ++ "_" ++ instrument) current_prices = some current_price) :
    calculate_portfolio_delta [(k1, p1), (k2, p2)] current_prices = 0 := by
  have hbeq1 : (("long" : String) == "long") = true := by decide
  have hbeq2 : (("short" : String) == "long") = false := by decide
  simp only [calculate_portfolio_delta, List.foldl, price_key, h1e, h1i, h2e, h2i, hp,
    h1s, h2s, h1z, h2z, hbeq1, hbeq2, if_true, if_false]
  simp

/-- Witness for C6 at the concrete matched pair `c6p1`/`c6p2`. -/
theorem C6_witness :
    calculate_portfolio_delta [("okx_ETH-USDT_long", c6p1), ("okx_ETH-USDT_short", c6p2)]
      c6prices = 0 :=
  C6_matched_pair_delta_zero "okx_ETH-USDT_long" "okx_ETH-USDT_short" "okx" "ETH-USDT"
    3 100 c6p1 c6p2 c6prices rfl rfl rfl rfl rfl rfl rfl rfl (by decide)

/-- Looking a key up in an association list built by pairing each key with a
function of it returns that function's value at the key. -/
theorem lookup_map_pair {β : Type} (f : String → β) (L : List String) (x : String) (u : β)
    (h : List.lookup x (L.map (fun e => (e, f e))) = some u) : u = f x := by
  induction L with
  | nil => simp [List.lookup] at h
  | cons a L ih =>
    simp only [List.map, List.lookup] at h
    cases hax : x == a with
    | true =>
      rw [hax] at h
      cases h
      rw [eq_of_beq hax]
    | false =>
      rw [hax] at h
      exact ih h

/-- C7: `calculate_margin_utilization` never divides by zero: whenever the
summed margin/futures/perpetual balance total of an exchange in the result is
0, its reported utilization is exactly 0. -/
theorem C7_margin_utilization_zero_when_no_margin (positions : Dict PositionEntry)
    (balances : Dict BalanceEntry) (exchange : String) (u : ℚ)
    (hu : List.lookup exchange (calculate_margin_utilization positions balances) = some u)
    (hzero : margin_available balances exchange = 0) : u = 0 := by
  have hval := lookup_map_pair
    (fun e => if margin_available balances e > 0 then
        margin_used positions e / margin_available balances e
      else 0)
    (exchanges_of positions) exchange u hu
  rw [hval]
  simp [hzero]

/-- Witness for C7: one leveraged position on `binance` and no balances. -/
theorem C7_witness :
    List.lookup "binance" (calculate_margin_utilization c7pos []) = some 0 ∧
    margin_available [] "binance" = 0 ∧ (0 : ℚ) = 0 :=
  ⟨by decide, by decide,
    C7_margin_utilization_zero_when_no_margin c7pos [] "binance" 0 (by decide) (by decide)⟩

/-- A key with a successful lookup satisfies the `any`-test used by `setKey`. -/
theorem any_key_of_lookup_isSome {α : Type} (m : Dict α) (k : String)
    (hmem : (List.lookup k m).isSome) : m.any (fun kv => kv.1 == k) = true := by
  induction m with
  | nil => simp [List.lookup] at hmem
  | cons kv m ih =>
    obtain ⟨a, b⟩ := kv
    rw [List.any_cons]
    cases hk : k == a with
    | true =>
      have hak : (a == k) = true := by rw [beq_iff_eq] at hk ⊢; exact hk.symm
      rw [hak, Bool.true_or]
    | false =>
      rw [List.lookup, hk] at hmem
      rw [ih hmem, Bool.or_true]

/-- After a dict assignment to a key that is already present, looking that key
up returns the newly assigned value. -/
theorem lookup_setKey_self {α : Type} (m : Dict α) (k : String) (v : α)
    (hmem : (List.lookup k m).isSome) : List.lookup k (setKey m k v) = some v := by
  have hany := any_key_of_lookup_isSome m k hmem
  rw [setKey, if_pos hany]
  clear hany
  induction m with
  | nil => simp [List.lookup] at hmem
  | cons kv m ih =>
    obtain ⟨a, b⟩ := kv
    rw [List.map_cons]
    by_cases hak : a = k
    · subst hak
      rw [if_pos (by rw [beq_iff_eq])]
      simp [List.lookup]
    · have hak2 : ((a, b).1 == k) = false := beq_eq_false_iff_ne.mpr hak
      have hka : (k == a) = false := beq_eq_false_iff_ne.mpr (Ne.symm hak)
      rw [if_neg (by rw [hak2]; exact Bool.false_ne_true)]
      rw [List.lookup, hka] at hmem
      simp only [List.lookup, hka]
      exact ih hmem

/-- C4: an `update_position` call on an existing key that changes the size
(to a nonzero value, so the quotient is defined) and keeps the same side (the
side is part of the key) recomputes the entry price as the size-weighted
average of the old notional and the incremental notional, divided by the new
size. -/
theorem C4_update_position_weighted_average (positions : Dict PositionEntry)
    (exchange instrument side : String) (size entry_price : ℚ) (leverage : Option ℚ)
    (now : ℚ) (position : PositionEntry)
    (hfound : List.lookup (exchange ++ "_" ++ instrument ++ "_" ++ side) positions =
      some position)
    (hchange : size ≠ position.size) (hnz : size ≠ 0) :
    List.lookup (exchange ++ "_" ++ instrument ++ "_" ++ side)
        (update_position positions exchange instrument side size entry_price leverage now) =
      some { position with
             entry_price :=
               (position.size * position.entry_price + (size - position.size) * entry_price)
                 / size,
             size := size, leverage := leverage } := by
  dsimp only [update_position]
  rw [hfound]
  dsimp only
  rw [if_pos hchange, if_pos hnz]
  exact lookup_setKey_self positions _ _ (by rw [hfound]; rfl)

/-- Witness for C4: growing `c4position` from size 2 to size 3 at price 130
moves the entry price to (2·100 + 1·130)/3 = 110. -/
theorem C4_witness :
    List.lookup "binance_BTC-USDT_long" c4pos = some c4position ∧
    (3 : ℚ) ≠ c4position.size ∧ (3 : ℚ) ≠ 0 ∧
    List.lookup "binance_BTC-USDT_long"
        (update_position c4pos "binance" "BTC-USDT" "long" 3 130 none 7) =
      some { c4position with
             entry_price :=
               (c4position.size * c4position.entry_price + (3 - c4position.size) * 130) / 3,
             size := 3, leverage := none } :=
  ⟨by decide, by decide, by decide,
    C4_update_position_weighted_average c4pos "binance" "BTC-USDT" "long" 3 130 none 7
      c4position (by decide) (by decide) (by decide)⟩

/-- C10: `update_position` on an existing key is guarded against degenerate
sizes: an unchanged size leaves the entry price untouched (no recompute), and
a size of 0 (with a changed size, so the recompute branch runs) skips the
division and stores the supplied entry price; the division is only ever
evaluated under a nonzero divisor. -/
theorem C10_update_position_degenerate_sizes (positions : Dict PositionEntry)
    (exchange instrument side : String) (size entry_price : ℚ) (leverage : Option ℚ)
    (now : ℚ) (position : PositionEntry)
    (hfound : List.lookup (exchange ++ "_" ++ instrument ++ "_" ++ side) positions =
      some position) :
    (size = position.size →
       List.lookup (exchange ++ "_" ++ instrument ++ "_" ++ side)
           (update_position positions exchange instrument side size entry_price leverage now) =
         some { position with size := size, leverage := leverage }) ∧
    (size = 0 → size ≠ position.size →
       List.lookup (exchange ++ "_" ++ instrument ++ "_" ++ side)
           (update_position positions exchange instrument side size entry_price leverage now) =
         some { position with entry_price := entry_price, size := size, leverage := leverage }) := by
  constructor
  · intro hsame
    dsimp only [update_position]
    rw [hfound]
    dsimp only
    rw [if_neg (by simpa using hsame)]
    exact lookup_setKey_self positions _ _ (by rw [hfound]; rfl)
  · intro hz hchange
    dsimp only [update_position]
    rw [hfound]
    dsimp only
    rw [if_pos hchange, if_neg (by simpa using hz)]
    exact lookup_setKey_self positions _ _ (by rw [hfound]; rfl)

/-- Witness for C10: re-sending size 4 leaves the entry price at 250, and
sending size 0 stores the supplied entry price 999 without dividing. -/
theorem C10_witness :
    List.lookup "binance_BTC-USDT_short" c10pos = some c10position ∧
    List.lookup "binance_BTC-USDT_short"
        (update_position c10pos "binance" "BTC-USDT" "short" 4 999 none 7) =
      some { c10position with size := 4, leverage := none } ∧
    List.lookup "binance_BTC-USDT_short"
        (update_position c10pos "binance" "BTC-USDT" "short" 0 999 none 7) =
      some { c10position with entry_price := 999, size := 0, leverage := none } :=
  ⟨by decide,
    (C10_update_position_degenerate_sizes c10pos "binance" "BTC-USDT" "short" 4 999 none 7
      c10position (by decide)).1 (by decide),
    (C10_update_position_degenerate_sizes c10pos "binance" "BTC-USDT" "short" 0 999 none 7
      c10position (by decide)).2 (by decide) (by decide)⟩

/-- C3: `evaluate_hedging_rule` emits nothing inside the dead zone
(`|imbalance| < min_hedge_size`) and nothing when the imbalance expressed in
basis points of total primary notional is below `threshold_bps`; any emitted
execution has size `min(|imbalance|, max_hedge_size)` and side `BUY` exactly
when the imbalance is positive. -/
theorem C3_evaluate_hedging_rule_guards (positions : Dict PositionEntry) (rule : HedgingRule)
    (current_prices : Dict ℚ) (now : ℚ) :
    (qabs (rule_imbalance positions rule) < rule.min_hedge_size →
       evaluate_hedging_rule positions rule current_prices now = none) ∧
    (∀ primary_price : ℚ,
       List.lookup rule.instrument_pair.1 current_prices = some primary_price →
       qabs (rule_imbalance positions rule * primary_price /
           (qabs (get_net_position positions rule.instrument_pair.1) * primary_price) * 10000) <
         rule.threshold_bps →
       evaluate_hedging_rule positions rule current_prices now = none) ∧
    (∀ h : HedgeExecution,
       evaluate_hedging_rule positions rule current_prices now = some h →
       h.hedge_size = qmin (qabs (rule_imbalance positions rule)) rule.max_hedge_size ∧
       h.hedge_side =
         (if rule_imbalance positions rule > 0 then TradeType.BUY else TradeType.SELL)) := by
  refine ⟨?_, ?_, ?_⟩
  · intro hdead
    dsimp only [evaluate_hedging_rule]
    rw [if_pos hdead]
  · intro primary_price hp hbps
    dsimp only [evaluate_hedging_rule]
    rw [hp]
    dsimp only
    repeat' split
    all_goals rfl
  · intro h heq
    dsimp only [evaluate_hedging_rule] at heq
    split at heq
    · exact Option.noConfusion heq
    · split at heq
      · exact Option.noConfusion heq
      · split at heq
        · exact Option.noConfusion heq
        · split at heq
          · exact Option.noConfusion heq
          · split at heq
            · exact Option.noConfusion heq
            · cases heq
              exact ⟨rfl, rfl⟩

/-- Witness for C3: with no positions the imbalance is 0, inside `c3rule`'s
dead zone of 5, so no execution is emitted. -/
theorem C3_witness :
    qabs (rule_imbalance [] c3rule) < c3rule.min_hedge_size ∧
    evaluate_hedging_rule [] c3rule [] 0 = none :=
  ⟨by decide, (C3_evaluate_hedging_rule_guards [] c3rule [] 0).1 (by decide)⟩

/-- The fold inside `calculate_unrealized_pnl`, relative to any accumulator:
it appends the marked positions and the collected P&L entries. -/
theorem calculate_unrealized_pnl_foldl (current_prices : Dict ℚ)
    (positions : Dict PositionEntry) :
    ∀ acc : Dict PositionEntry × Dict ℚ,
      List.foldl
        (fun acc kv =>
          match List.lookup (price_key kv.2) current_prices with
          | some current_price =>
              (acc.1 ++ [(kv.1, mark_position kv.2 current_price)],
               acc.2 ++ [(kv.1, position_pnl kv.2 current_price)])
          | none => (acc.1 ++ [kv], acc.2))
        acc positions =
      (acc.1 ++ positions.map (fun kv =>
          match List.lookup (price_key kv.2) current_prices with
          | some current_price => (kv.1, mark_position kv.2 current_price)
          | none => kv),
       acc.2 ++ positions.filterMap (fun kv =>
          (List.lookup (price_key kv.2) current_prices).map
            (fun current_price => (kv.1, position_pnl kv.2 current_price)))) := by
  induction positions with
  | nil => intro acc; simp
  | cons kv rest ih =>
    intro acc
    rw [List.foldl_cons, List.map_cons, List.filterMap_cons]
    cases hp : List.lookup (price_key kv.2) current_prices with
    | some c =>
      simp only [hp]
      rw [ih]
      simp
    | none =>
      simp only [hp]
      rw [ih]
      simp

/-- `calculate_unrealized_pnl` as a map over positions paired with a filterMap
of resolved P&L values. -/
theorem calculate_unrealized_pnl_eq (positions : Dict PositionEntry)
    (current_prices : Dict ℚ) :
    calculate_unrealized_pnl positions current_prices =
      (positions.map (fun kv =>
          match List.lookup (price_key kv.2) current_prices with
          | some current_price => (kv.1, mark_position kv.2 current_price)
          | none => kv),
       positions.filterMap (fun kv =>
          (List.lookup (price_key kv.2) current_prices).map
            (fun current_price => (kv.1, position_pnl kv.2 current_price)))) := by
  have h := calculate_unrealized_pnl_foldl current_prices positions ([], [])
  simpa [calculate_unrealized_pnl] using h

/-- Keys of the collected P&L map all come from the position table. -/
theorem lookup_pnl_map_none (current_prices : Dict ℚ) (k : String) :
    ∀ positions : Dict PositionEntry, (∀ q : PositionEntry, (k, q) ∉ positions) →
      List.lookup k (positions.filterMap (fun kv =>
          (List.lookup (price_key kv.2) current_prices).map
            (fun current_price => (kv.1, position_pnl kv.2 current_price)))) = none := by
  intro positions
  induction positions with
  | nil => intro _; rfl
  | cons kv rest ih =>
    intro habs
    rw [List.filterMap_cons]
    cases hp : List.lookup (price_key kv.2) current_prices with
    | none =>
      simp only [hp, Option.map_none']
      exact ih (fun q hq => habs q (List.mem_cons_of_mem kv hq))
    | some c =>
      have hne : (k == kv.1) = false := by
        cases hkk : k == kv.1 with
        | false => rfl
        | true =>
          exfalso
          have hk : k = kv.1 := eq_of_beq hkk
          exact habs kv.2 (by rw [hk]; simp)
      simp only [hp, Option.map_some', List.lookup, hne]
      exact ih (fun q hq => habs q (List.mem_cons_of_mem kv hq))

/-- With unique keys, looking a position's key up in the collected P&L map
yields exactly its P&L when its price resolves, and nothing otherwise. -/
theorem lookup_pnl_map (current_prices : Dict ℚ) :
    ∀ (positions : Dict PositionEntry) (k : String) (p : PositionEntry),
      (positions.map Prod.fst).Nodup → (k, p) ∈ positions →
      List.lookup k (positions.filterMap (fun kv =>
          (List.lookup (price_key kv.2) current_prices).map
            (fun current_price => (kv.1, position_pnl kv.2 current_price)))) =
        (List.lookup (price_key p) current_prices).map
          (fun current_price => position_pnl p current_price) := by
  intro positions
  induction positions with
  | nil => intro k p _ hmem; simp at hmem
  | cons kv rest ih =>
    intro k p hnd hmem
    rw [List.map_cons, List.nodup_cons] at hnd
    rw [List.filterMap_cons]
    rcases List.mem_cons.mp hmem with heq | hmem2
    · rw [← heq] at hnd ⊢
      cases hp : List.lookup (price_key p) current_prices with
      | some c =>
        simp only [hp, Option.map_some', List.lookup]
        rw [beq_self_eq_true]
      | none =>
        simp only [hp, Option.map_none']
        apply lookup_pnl_map_none
        intro q hq
        have hqf : k ∈ rest.map Prod.fst := by
          simpa using List.mem_map_of_mem Prod.fst hq
        exact hnd.1 hqf
    · have hk_in : k ∈ rest.map Prod.fst := List.mem_map_of_mem Prod.fst hmem2
      have hne : (k == kv.1) = false := by
        cases hkk : k == kv.1 with
        | false => rfl
        | true => exact absurd ((eq_of_beq hkk) ▸ hk_in) hnd.1
      cases hp : List.lookup (price_key kv.2) current_prices with
      | some c =>
        simp only [hp, Option.map_some', List.lookup, hne]
        exact ih k p hnd.2 hmem2
      | none =>
        simp only [hp, Option.map_none']
        exact ih k p hnd.2 hmem2

/-- C5: `calculate_unrealized_pnl` computes `(current − entry) × size` for a
long and `(entry − current) × size` for a short, writes the value into the
position's `unrealized_pnl` field, and leaves positions whose price key does
not resolve entirely unchanged and absent from the returned mapping. -/
theorem C5_calculate_unrealized_pnl (positions : Dict PositionEntry)
    (current_prices : Dict ℚ) (hnd : (positions.map Prod.fst).Nodup)
    (k : String) (p : PositionEntry) (hmem : (k, p) ∈ positions) :
    (∀ c : ℚ, List.lookup (price_key p) current_prices = some c →
       (k, mark_position p c) ∈ (calculate_unrealized_pnl positions current_prices).1 ∧
       List.lookup k (calculate_unrealized_pnl positions current_prices).2 =
         some (position_pnl p c)) ∧
    (List.lookup (price_key p) current_prices = none →
       (k, p) ∈ (calculate_unrealized_pnl positions current_prices).1 ∧
       List.lookup k (calculate_unrealized_pnl positions current_prices).2 = none) := by
  rw [calculate_unrealized_pnl_eq]
  constructor
  · intro c hc
    constructor
    · have hmm := List.mem_map_of_mem
        (fun kv : String × PositionEntry =>
          match List.lookup (price_key kv.2) current_prices with
          | some current_price => (kv.1, mark_position kv.2 current_price)
          | none => kv) hmem
      simpa [hc] using hmm
    · rw [lookup_pnl_map current_prices positions k p hnd hmem, hc]
      rfl
  · intro hc
    constructor
    · have hmm := List.mem_map_of_mem
        (fun kv : String × PositionEntry =>
          match List.lookup (price_key kv.2) current_prices with
          | some current_price => (kv.1, mark_position kv.2 current_price)
          | none => kv) hmem
      simpa [hc] using hmm
    · rw [lookup_pnl_map current_prices positions k p hnd hmem, hc]
      rfl

/-- Witness for C5: the spec scenario — long 0.5 at 50000 and short 0.5 at
51000 against price 52000 yield +1000 and −500. -/
theorem C5_witness :
    (("binance_BTC-USDT_long", c5long) ∈ c5pos ∧ (c5pos.map Prod.fst).Nodup ∧
      List.lookup (price_key c5long) c5prices = some 52000) ∧
    List.lookup "binance_BTC-USDT_long" (calculate_unrealized_pnl c5pos c5prices).2 =
      some 1000 ∧
    List.lookup "binance_BTC-USDT_short" (calculate_unrealized_pnl c5pos c5prices).2 =
      some (-500) := by
  refine ⟨⟨by decide, by decide, by decide⟩, ?_, ?_⟩
  · have h := ((C5_calculate_unrealized_pnl c5pos c5prices (by decide) "binance_BTC-USDT_long"
      c5long (by decide)).1 52000 (by decide)).2
    exact h.trans (by decide)
  · have h := ((C5_calculate_unrealized_pnl c5pos c5prices (by decide) "binance_BTC-USDT_short"
      c5short (by decide)).1 52000 (by decide)).2
    exact h.trans (by decide)

/-- The per-position exit decision, as a proposition: age beyond the maximum,
or a configured (nonzero) take-profit exceeded, or a configured (nonzero)
stop-loss breached. -/
theorem position_marked_iff (rp : RiskParameters) (now : ℚ) (pnl : ActivePosition → ℚ)
    (position : ActivePosition) :
    position_marked_for_close rp now pnl position = true ↔
      ((now - position.timestamp) / 60 > (rp.max_position_age_minutes : ℚ) ∨
        (∃ tp, rp.take_profit_bps = some tp ∧ tp ≠ 0 ∧ pnl position > tp) ∨
        (∃ sl, rp.stop_loss_bps = some sl ∧ sl ≠ 0 ∧ pnl position < -sl)) := by
  unfold position_marked_for_close take_profit_hit stop_loss_hit
  rcases htp : rp.take_profit_bps with _ | tp <;>
    rcases hsl : rp.stop_loss_bps with _ | sl <;>
      by_cases hage : (now - position.timestamp) / 60 > (rp.max_position_age_minutes : ℚ) <;>
        simp [hage, htp, hsl]

/-- Entries surviving the close loop were already present. -/
theorem mem_foldl_close (ids : List String) :
    ∀ (m : Dict ActivePosition) (kv : String × ActivePosition),
      kv ∈ ids.foldl close_position m → kv ∈ m := by
  induction ids with
  | nil => intro m kv h; exact h
  | cons pid ids ih =>
    intro m kv h
    exact List.mem_of_mem_filter (ih (close_position m pid) kv h)

/-- A closed id has no entry left after the close loop. -/
theorem not_mem_foldl_close (ids : List String) :
    ∀ (m : Dict ActivePosition) (id : String), id ∈ ids →
      ∀ q : ActivePosition, (id, q) ∉ ids.foldl close_position m := by
  induction ids with
  | nil => intro m id h; simp at h
  | cons pid ids ih =>
    intro m id hmem q hq
    rcases List.mem_cons.mp hmem with heq | hmem2
    · subst heq
      have h1 := mem_foldl_close ids (close_position m id) (id, q) hq
      have h2 := List.of_mem_filter h1
      simp at h2
    · exact ih (close_position m pid) id hmem2 q hq

/-- An entry whose id is not closed survives the close loop. -/
theorem mem_foldl_close_of_not_mem (ids : List String) :
    ∀ (m : Dict ActivePosition) (id : String) (q : ActivePosition),
      id ∉ ids → (id, q) ∈ m → (id, q) ∈ ids.foldl close_position m := by
  induction ids with
  | nil => intro m id q _ h; exact h
  | cons pid ids ih =>
    intro m id q hnid hmem
    have hne : id ≠ pid := fun h => hnid (h ▸ List.mem_cons_self pid ids)
    apply ih
    · intro h; exact hnid (List.mem_cons_of_mem pid h)
    · refine List.mem_filter.mpr ⟨hmem, ?_⟩
      simp [hne]

/-- In a table with unique keys, a key determines its stored value. -/
theorem value_unique_of_nodup_keys {α : Type} :
    ∀ l : List (String × α), (l.map Prod.fst).Nodup →
      ∀ (k : String) (p q : α), (k, p) ∈ l → (k, q) ∈ l → p = q := by
  intro l
  induction l with
  | nil => intro _ k p q hp _; simp at hp
  | cons kv rest ih =>
    intro hnd k p q hp hq
    rw [List.map_cons, List.nodup_cons] at hnd
    rcases List.mem_cons.mp hp with he1 | hm1 <;> rcases List.mem_cons.mp hq with he2 | hm2
    · exact congrArg Prod.snd (he1.trans he2.symm)
    · exfalso
      have hkin : k ∈ rest.map Prod.fst := by
        simpa using List.mem_map_of_mem Prod.fst hm2
      apply hnd.1
      rw [← he1]
      exact hkin
    · exfalso
      have hkin : k ∈ rest.map Prod.fst := by
        simpa using List.mem_map_of_mem Prod.fst hm1
      apply hnd.1
      rw [← he2]
      exact hkin
    · exact ih hnd.2 k p q hm1 hm2

/-- C8: `monitor_existing_positions` closes a position exactly when its age
exceeds `max_position_age_minutes` (regardless of P&L) or a configured
(nonzero) take-profit/stop-loss threshold is breached; closed ids are removed
from the table and unclosed entries survive unchanged. -/
theorem C8_monitor_existing_positions (rp : RiskParameters) (now : ℚ)
    (pnl : ActivePosition → ℚ) (active_positions : Dict ActivePosition)
    (id : String) (position : ActivePosition)
    (hnd : (active_positions.map Prod.fst).Nodup)
    (hmem : (id, position) ∈ active_positions) :
    (id ∈ (monitor_existing_positions rp now pnl active_positions).2 ↔
      ((now - position.timestamp) / 60 > (rp.max_position_age_minutes : ℚ) ∨
        (∃ tp, rp.take_profit_bps = some tp ∧ tp ≠ 0 ∧ pnl position > tp) ∨
        (∃ sl, rp.stop_loss_bps = some sl ∧ sl ≠ 0 ∧ pnl position < -sl))) ∧
    (position_marked_for_close rp now pnl position = true →
       ∀ q : ActivePosition,
         (id, q) ∉ (monitor_existing_positions rp now pnl active_positions).1) ∧
    (position_marked_for_close rp now pnl position = false →
       (id, position) ∈ (monitor_existing_positions rp now pnl active_positions).1) := by
  have hiff : id ∈ (monitor_existing_positions rp now pnl active_positions).2 ↔
      position_marked_for_close rp now pnl position = true := by
    constructor
    · intro h
      rcases List.mem_map.mp h with ⟨kv, hkv, hfst⟩
      obtain ⟨a, b⟩ := kv
      have hkvmem := List.mem_of_mem_filter hkv
      have hpred := List.of_mem_filter hkv
      cases hfst
      have hbp : b = position :=
        value_unique_of_nodup_keys active_positions hnd a b position hkvmem hmem
      rwa [hbp] at hpred
    · intro h
      exact List.mem_map.mpr ⟨(id, position), List.mem_filter.mpr ⟨hmem, h⟩, rfl⟩
  refine ⟨hiff.trans (position_marked_iff rp now pnl position), ?_, ?_⟩
  · intro hmark q
    exact not_mem_foldl_close _ _ id (hiff.mpr hmark) q
  · intro hmark
    apply mem_foldl_close_of_not_mem
    · intro hin
      have hmt := hiff.mp hin
      rw [hmark] at hmt
      exact Bool.noConfusion hmt
    · exact hmem

/-- Witness for C8: the spec scenario — a position open 70 minutes with
`max_position_age_minutes = 60` and unbreached thresholds is closed on age. -/
theorem C8_witness :
    ((("legA_legB_0", c8position) ∈ c8active) ∧ (c8active.map Prod.fst).Nodup) ∧
    "legA_legB_0" ∈ (monitor_existing_positions c8rp 4200 (fun _ => 0) c8active).2 := by
  refine ⟨⟨by decide, by decide⟩, ?_⟩
  exact (C8_monitor_existing_positions c8rp 4200 (fun _ => 0) c8active "legA_legB_0"
      c8position (by decide) (by decide)).1.mpr (Or.inl (by norm_num [c8position, c8rp]))

/-- C1 counterexample: with one rule of priority 1 firing alongside the
emergency path, the emergency hedge (priority 999 via `get_hedge_priority`,
since no rule is keyed `("PORTFOLIO", "A")`) is sorted after the rule-based
hedge, not ahead of it. -/
theorem C1_counterexample :
    emergency_component c1pos 100 100000 c1prices 0 =
      some { primary_instrument := "PORTFOLIO", hedge_instrument := "A", hedge_size := 100,
             hedge_side := TradeType.SELL, execution_price := none, timestamp := 0,
             status := "pending" } ∧
    (evaluate_hedging_needs c1pos c1rules 100 100000 c1prices 0).map
        (fun h => h.primary_instrument) = ["A", "PORTFOLIO"] := by
  decide

/-- C1 (amended): the list returned by `evaluate_hedging_needs` is a
permutation of the emergency hedge (when produced) followed by the rule-based
hedges, sorted ascending by `get_hedge_priority`; the emergency hedge is keyed
999 when no rule is registered under its pair, so it precedes only hedges of
priority at least its own key rather than always coming first. -/
theorem C1_amended_sorted_by_priority (positions : Dict PositionEntry)
    (hedging_rules : RuleDict) (emergency_hedge_threshold max_single_hedge_size : ℚ)
    (current_prices : Dict ℚ) (now : ℚ) :
    (evaluate_hedging_needs positions hedging_rules emergency_hedge_threshold
        max_single_hedge_size current_prices now).Pairwise
      (fun a b => get_hedge_priority hedging_rules a ≤ get_hedge_priority hedging_rules b) ∧
    (evaluate_hedging_needs positions hedging_rules emergency_hedge_threshold
        max_single_hedge_size current_prices now).Perm
      ((emergency_component positions emergency_hedge_threshold max_single_hedge_size
          current_prices now).toList
        ++ rule_hedges positions hedging_rules current_prices now) := by
  constructor
  · have htrans : ∀ a b c : HedgeExecution,
        (fun a b => decide
          (get_hedge_priority hedging_rules a ≤ get_hedge_priority hedging_rules b)) a b →
        (fun a b => decide
          (get_hedge_priority hedging_rules a ≤ get_hedge_priority hedging_rules b)) b c →
        (fun a b => decide
          (get_hedge_priority hedging_rules a ≤ get_hedge_priority hedging_rules b)) a c := by
      intro a b c hab hbc
      simp only [decide_eq_true_eq] at hab hbc ⊢
      exact le_trans hab hbc
    have htotal : ∀ a b : HedgeExecution,
        ((fun a b => decide
          (get_hedge_priority hedging_rules a ≤ get_hedge_priority hedging_rules b)) a b ||
         (fun a b => decide
          (get_hedge_priority hedging_rules a ≤ get_hedge_priority hedging_rules b)) b a) := by
      intro a b
      simp only [Bool.or_eq_true, decide_eq_true_eq]
      exact le_total _ _
    have hs := @List.sorted_mergeSort HedgeExecution
      (fun a b => decide
        (get_hedge_priority hedging_rules a ≤ get_hedge_priority hedging_rules b))
      htrans htotal
      ((emergency_component positions emergency_hedge_threshold max_single_hedge_size
          current_prices now).toList
        ++ rule_hedges positions hedging_rules current_prices now)
    exact hs.imp (fun hab => of_decide_eq_true hab)
  · exact List.mergeSort_perm
      ((emergency_component positions emergency_hedge_threshold max_single_hedge_size
          current_prices now).toList
        ++ rule_hedges positions hedging_rules current_prices now)
      (fun a b => decide
        (get_hedge_priority hedging_rules a ≤ get_hedge_priority hedging_rules b))

/-- C2 counterexample: a portfolio delta of 200 exceeds the emergency
threshold of 100, yet `evaluate_hedging_needs` includes no emergency hedge —
every price key has liquidity score 0 (the ledger price key `e_A` matches no
position's bare instrument name), so `calculate_emergency_hedge` returns
nothing. -/
theorem C2_counterexample :
    qabs (calculate_portfolio_delta c2pos c2prices) > 100 ∧
    evaluate_hedging_needs c2pos [] 100 100000 c2prices 0 = [] := by
  decide

/-- The emergency argmax fold never decreases its running score, which ends at
least as high as every scanned entry's liquidity score. -/
theorem emergency_fold_bound (positions : Dict PositionEntry) :
    ∀ (current_prices : Dict ℚ) (acc : Option String × ℚ),
      acc.2 ≤ (List.foldl (emergency_step positions) acc current_prices).2 ∧
      ∀ kv ∈ current_prices,
        liquidity_score positions kv ≤
          (List.foldl (emergency_step positions) acc current_prices).2 := by
  intro current_prices
  induction current_prices with
  | nil => intro acc; exact ⟨le_refl _, by simp⟩
  | cons kv rest ih =>
    intro acc
    rw [List.foldl_cons]
    have hstep : acc.2 ≤ (emergency_step positions acc kv).2 ∧
        liquidity_score positions kv ≤ (emergency_step positions acc kv).2 := by
      unfold emergency_step
      by_cases hgt : liquidity_score positions kv > acc.2
      · rw [if_pos hgt]; exact ⟨le_of_lt hgt, le_refl _⟩
      · rw [if_neg hgt]; exact ⟨le_refl _, le_of_not_lt hgt⟩
    obtain ⟨h1, h2⟩ := ih (emergency_step positions acc kv)
    refine ⟨le_trans hstep.1 h1, ?_⟩
    intro kv2 hkv2
    rcases List.mem_cons.mp hkv2 with he | hm
    · rw [he]
      exact le_trans hstep.2 h1
    · exact h2 kv2 hm

/-- The emergency argmax fold either returns its accumulator untouched or the
key and score of some scanned entry that strictly improved on it. -/
theorem emergency_fold_cases (positions : Dict PositionEntry) :
    ∀ (current_prices : Dict ℚ) (acc : Option String × ℚ),
      List.foldl (emergency_step positions) acc current_prices = acc ∨
      ∃ kv ∈ current_prices,
        (List.foldl (emergency_step positions) acc current_prices).1 = some kv.1 ∧
        (List.foldl (emergency_step positions) acc current_prices).2 =
          liquidity_score positions kv ∧
        acc.2 < liquidity_score positions kv := by
  intro current_prices
  induction current_prices with
  | nil => intro acc; exact Or.inl rfl
  | cons kv rest ih =>
    intro acc
    rw [List.foldl_cons]
    by_cases hgt : liquidity_score positions kv > acc.2
    · have hstep : emergency_step positions acc kv =
          (some kv.1, liquidity_score positions kv) := by
        unfold emergency_step; rw [if_pos hgt]
      rcases ih (emergency_step positions acc kv) with heq | ⟨kv2, hm2, h1, h2, h3⟩
      · right
        exact ⟨kv, List.mem_cons_self kv rest, by rw [heq, hstep], by rw [heq, hstep], hgt⟩
      · right
        refine ⟨kv2, List.mem_cons_of_mem kv hm2, h1, h2, ?_⟩
        rw [hstep] at h3
        exact lt_trans hgt h3
    · have hstep : emergency_step positions acc kv = acc := by
        unfold emergency_step; rw [if_neg hgt]
      rw [hstep]
      rcases ih acc with heq | ⟨kv2, hm2, h1, h2, h3⟩
      · exact Or.inl heq
      · exact Or.inr ⟨kv2, List.mem_cons_of_mem kv hm2, h1, h2, h3⟩

/-- Specification of the argmax loop: a `none` result means no entry has a
positive liquidity score; a `some` result names an entry of maximal, positive
liquidity score. -/
theorem best_emergency_spec (positions : Dict PositionEntry) (current_prices : Dict ℚ) :
    ((best_emergency_instrument positions current_prices).1 = none →
       ∀ kv ∈ current_prices, liquidity_score positions kv ≤ 0) ∧
    (∀ s : String, (best_emergency_instrument positions current_prices).1 = some s →
       (∃ kv ∈ current_prices, kv.1 = s ∧
         liquidity_score positions kv = (best_emergency_instrument positions current_prices).2 ∧
         0 < liquidity_score positions kv) ∧
       ∀ kv ∈ current_prices,
         liquidity_score positions kv ≤
           (best_emergency_instrument positions current_prices).2) := by
  have hbound := emergency_fold_bound positions current_prices (none, 0)
  have hcases := emergency_fold_cases positions current_prices (none, 0)
  constructor
  · intro hnone kv hkv
    rcases hcases with heq | ⟨kv2, _, h1, _, _⟩
    · have hb := hbound.2 kv hkv
      unfold best_emergency_instrument at hb
      rw [heq] at hb
      exact hb
    · unfold best_emergency_instrument at hnone
      rw [hnone] at h1
      exact Option.noConfusion h1
  · intro s hsome
    rcases hcases with heq | ⟨kv2, hm2, h1, h2, h3⟩
    · unfold best_emergency_instrument at hsome
      rw [heq] at hsome
      exact Option.noConfusion hsome
    · refine ⟨⟨kv2, hm2, ?_, ?_, h3⟩, hbound.2⟩
      · unfold best_emergency_instrument at hsome
        rw [hsome] at h1
        exact (Option.some.inj h1).symm
      · exact h2.symm

/-- C2 (amended): with nonempty price keys, an emergency hedge is included
iff `|portfolio_delta| > emergency_hedge_threshold` AND some price-map entry
has positive liquidity score `|net_position|×price` (with only composite
ledger keys in the price map every score is 0 and no emergency hedge is
produced); when produced, it is in the returned list, has size
`min(0.5×|delta|, max_single_hedge_size)`, side `SELL` for positive delta and
`BUY` otherwise, and hedges an instrument of maximal liquidity score. -/
theorem C2_amended_emergency (positions : Dict PositionEntry) (hedging_rules : RuleDict)
    (emergency_hedge_threshold max_single_hedge_size : ℚ) (current_prices : Dict ℚ)
    (now : ℚ) (hkeys : ∀ kv ∈ current_prices, kv.1 ≠ "") :
    ((emergency_component positions emergency_hedge_threshold max_single_hedge_size
        current_prices now).isSome ↔
      (qabs (calculate_portfolio_delta positions current_prices) > emergency_hedge_threshold ∧
        ∃ kv ∈ current_prices, 0 < liquidity_score positions kv)) ∧
    (∀ h : HedgeExecution,
      emergency_component positions emergency_hedge_threshold max_single_hedge_size
          current_prices now = some h →
      h ∈ evaluate_hedging_needs positions hedging_rules emergency_hedge_threshold
          max_single_hedge_size current_prices now ∧
      h.hedge_size =
        qmin (qabs (calculate_portfolio_delta positions current_prices) * (1 / 2))
          max_single_hedge_size ∧
      h.hedge_side =
        (if calculate_portfolio_delta positions current_prices > 0 then TradeType.SELL
         else TradeType.BUY) ∧
      ∃ kv ∈ current_prices, kv.1 = h.hedge_instrument ∧ 0 < liquidity_score positions kv ∧
        ∀ kv2 ∈ current_prices,
          liquidity_score positions kv2 ≤ liquidity_score positions kv) := by
  constructor
  · constructor
    · intro hsome
      dsimp only [emergency_component] at hsome
      by_cases hthr : qabs (calculate_portfolio_delta positions current_prices) >
          emergency_hedge_threshold
      · refine ⟨hthr, ?_⟩
        rw [if_pos hthr] at hsome
        unfold calculate_emergency_hedge at hsome
        cases hbest : (best_emergency_instrument positions current_prices).1 with
        | none => rw [hbest] at hsome; simp at hsome
        | some s =>
          rcases ((best_emergency_spec positions current_prices).2 s hbest).1 with
            ⟨kv, hm, _, _, hpos⟩
          exact ⟨kv, hm, hpos⟩
      · rw [if_neg hthr] at hsome
        simp at hsome
    · rintro ⟨hthr, kv, hm, hpos⟩
      dsimp only [emergency_component]
      rw [if_pos hthr]
      unfold calculate_emergency_hedge
      cases hbest : (best_emergency_instrument positions current_prices).1 with
      | none =>
        exact absurd ((best_emergency_spec positions current_prices).1 hbest kv hm)
          (not_le.mpr hpos)
      | some s =>
        rcases ((best_emergency_spec positions current_prices).2 s hbest).1 with
          ⟨kv2, hm2, hk1, _, _⟩
        have hsne : s ≠ "" := by
          intro hs
          exact hkeys kv2 hm2 (by rw [hk1, hs])
        dsimp only
        rw [if_neg hsne]
        rfl
  · intro h heq
    have heq2 := heq
    dsimp only [emergency_component] at heq2
    by_cases hthr : qabs (calculate_portfolio_delta positions current_prices) >
        emergency_hedge_threshold
    swap
    · rw [if_neg hthr] at heq2
      exact Option.noConfusion heq2
    rw [if_pos hthr] at heq2
    unfold calculate_emergency_hedge at heq2
    cases hbest : (best_emergency_instrument positions current_prices).1 with
    | none =>
      rw [hbest] at heq2
      exact Option.noConfusion heq2
    | some s =>
      rw [hbest] at heq2
      dsimp only at heq2
      by_cases hse : s = ""
      · rw [if_pos hse] at heq2
        exact Option.noConfusion heq2
      · rw [if_neg hse] at heq2
        have hh : h =
            { primary_instrument := "PORTFOLIO", hedge_instrument := s,
              hedge_size :=
                qmin (qabs (calculate_portfolio_delta positions current_prices) * (1 / 2))
                  max_single_hedge_size,
              hedge_side :=
                if calculate_portfolio_delta positions current_prices > 0 then TradeType.SELL
                else TradeType.BUY,
              execution_price := none, timestamp := now, status := "pending" } :=
          (Option.some.inj heq2).symm
        refine ⟨?_, ?_, ?_, ?_⟩
        · have hmm : h ∈ (emergency_component positions emergency_hedge_threshold
              max_single_hedge_size current_prices now).toList
                ++ rule_hedges positions hedging_rules current_prices now := by
            rw [heq]
            exact List.mem_append_left _ (List.mem_singleton.mpr rfl)
          dsimp only [evaluate_hedging_needs]
          exact List.mem_mergeSort.mpr hmm
        · rw [hh]
        · rw [hh]
        · rcases (best_emergency_spec positions current_prices).2 s hbest with
            ⟨⟨kv, hm, hk1, hks, hpos⟩, hbound⟩
          refine ⟨kv, hm, ?_, hpos, ?_⟩
          · rw [hh]
            exact hk1
          · intro kv2 hm2
            have hb := hbound kv2 hm2
            rw [← hks] at hb
            exact hb

/-- Witness for C2 (amended): with the bare key `A` also present in the price
map, the emergency hedge `c2wh` is produced, included in the returned list,
and sized `min(0.5×200, 100000) = 100`. -/
theorem C2_amended_witness :
    ((∀ kv ∈ c2wprices, kv.1 ≠ "") ∧
      emergency_component c2pos 100 100000 c2wprices 0 = some c2wh) ∧
    c2wh ∈ evaluate_hedging_needs c2pos [] 100 100000 c2wprices 0 ∧
    c2wh.hedge_size =
      qmin (qabs (calculate_portfolio_delta c2pos c2wprices) * (1 / 2)) 100000 := by
  refine ⟨⟨by decide, by decide⟩, ?_, ?_⟩
  · exact ((C2_amended_emergency c2pos [] 100 100000 c2wprices 0 (by decide)).2 c2wh
      (by decide)).1
  · exact ((C2_amended_emergency c2pos [] 100 100000 c2wprices 0 (by decide)).2 c2wh
      (by decide)).2.1

end Spec2Proof
